import Mathlib

/-!
Shallow embedding of the Mapier-Hub bulk synchronization scripts
(`scripts/import_overture_us.py` and `scripts/clear_places.py`).

Python values are modelled by an inductive `Value`; a Python dict is an
association list preserving insertion order.  External collaborators
(the DuckDB streaming source, the Supabase store, `json.loads`) are
modelled as explicit parameters: the source delivers a list of rows, the
store's batch / singleton upsert outcomes are given by oracles, and the
JSON parser is a function parameter.  Machine effects (printing, tqdm
progress bars, environment loading) have no bearing on the claims and
are omitted; the counters, the sequence of store calls and the rows
pulled from the source are tracked explicitly.
-/

/-- A Python value as it flows through the import pipeline: `None`,
strings, integers, sequences, and dicts (association lists preserving
insertion order, as Python dicts do). -/
inductive Value where
  | null
  | str (s : String)
  | int (n : Int)
  | list (xs : List Value)
  | dict (fields : List (String × Value))

/-- A Python dict keyed by strings (insertion ordered). -/
abbrev Record := List (String × Value)

/-- Exceptions that `transform_record` can raise: `KeyError` when a
subscripted key is absent, `TypeError` from `list(...)` on a
non-iterable, and a JSON decode error from `json.loads`. -/
inductive TransformErr where
  | keyError (f : String)
  | typeError (msg : String)
  | jsonError (msg : String)

/-- Subscripting `record[f]` on a Python dict: first (and only) binding of `f`. -/
def lookupField : Record → String → Option Value
  | [], _ => none
  | (k, v) :: r, f => if k = f then some v else lookupField r f

/-- Assignment `record[f] = v` on a Python dict: replace the existing binding in
place (keeping its position) or append a new one at the end. -/
def setField (r : Record) (f : String) (v : Value) : Record :=
  if (lookupField r f).isSome then
    r.map (fun p => if p.1 = f then (f, v) else p)
  else r ++ [(f, v)]

/-- Model of `dict(zip(columns, row))`: pair columns with values, truncating at
the shorter sequence (the column list of this pipeline has no
duplicates). -/
def dictZip : List String → List Value → Record
  | c :: cs, v :: vs => (c, v) :: dictZip cs vs
  | _, _ => []

/-- Python truthiness of a value (`if record[arr_field]:`). -/
def pyTruthy : Value → Bool
  | .null => false
  | .str s => s ≠ ""
  | .int n => n != 0
  | .list xs => !xs.isEmpty
  | .dict fs => !fs.isEmpty

/-- Python `list(v)`: identity on sequences, characters of a string,
keys of a dict, `TypeError` on non-iterables.  (`None` never reaches
this call in the transform because it is falsy.) -/
def pyList : Value → Except TransformErr (List Value)
  | .list xs => .ok xs
  | .str s => .ok (s.toList.map (fun c => Value.str (String.mk [c])))
  | .dict fs => .ok (fs.map (fun p => Value.str p.1))
  | .int _ => .error (.typeError "int object is not iterable")
  | .null => .error (.typeError "NoneType object is not iterable")

/-- Python `str()` as used inside f-strings.  Container rendering is
abbreviated (the upsert keys interpolated by the pipeline are scalar
strings). -/
def pyStr : Value → String
  | .null => "None"
  | .str s => s
  | .int n => toString n
  | .list xs => "[" ++ toString xs.length ++ " items]"
  | .dict fs => "\x7b" ++ toString fs.length ++ " items\x7d"

/-- Rendering of a transform exception interpolated into the sample
message (Python would add `KeyError` quoting; the payload is kept). -/
def TransformErr.message : TransformErr → String
  | .keyError f => f
  | .typeError m => m
  | .jsonError m => m

/-- Whether an `Except` computation succeeded. -/
def okB : Except ε α → Bool
  | .ok _ => true
  | .error _ => false

/-- Constant `OVERTURE_VERSION` (import_overture_us.py line 40). -/
def OVERTURE_VERSION : String := "2025-11-19.0"

/-- Constant `BATCH_SIZE` (import_overture_us.py line 42). -/
def BATCH_SIZE : Nat := 500

/-- The array-valued fields normalized by `transform_record`
(import_overture_us.py line 127). -/
def ARRAY_FIELDS : List String :=
  ["alternate_categories", "websites", "socials", "phones", "emails"]

/-- The `columns` list `main` pairs with each fetched row
(import_overture_us.py lines 222-226). -/
def columns : List String :=
  ["id", "name", "confidence", "primary_category", "alternate_categories",
   "brand", "operating_status", "websites", "socials", "phones", "emails",
   "street", "city", "state", "postcode", "country", "lon", "lat", "raw"]

/-- One step of the array-normalization loop (lines 127-131): subscript
the field (KeyError if absent), and either copy it with `list(...)`
when truthy or set it to `None`.  Note an empty sequence is falsy, so it
is sent to `None` exactly like an absent value. -/
def normalizeArrayField (record : Record) (f : String) :
    Except TransformErr Record :=
  match lookupField record f with
  | none => .error (.keyError f)
  | some v =>
    if pyTruthy v then do
      let l ← pyList v
      pure (setField record f (Value.list l))
    else pure (setField record f Value.null)

/-- The `for arr_field in [...]` loop of `transform_record`. -/
def normalizeArrays (record : Record) : Except TransformErr Record :=
  ARRAY_FIELDS.foldlM normalizeArrayField record

/-- Model of `json.dumps(v, default=str)` followed by `json.loads`: every
constructor of `Value` is JSON-serializable, so on this value universe
the round trip is the identity. -/
def jsonRoundTrip (v : Value) : Value := v

/-- The `raw` handling of `transform_record` (lines 134-138): subscript
`raw` (KeyError if absent); when truthy, parse it if it is a string
(propagating a JSON decode failure) or round-trip it if it is a dict;
any other shape is left untouched. -/
def handleRaw (loads : String → Except String Value) (record : Record) :
    Except TransformErr Record :=
  match lookupField record "raw" with
  | none => .error (.keyError "raw")
  | some v =>
    if pyTruthy v then
      match v with
      | .str s =>
        match loads s with
        | .ok j => .ok (setField record "raw" j)
        | .error e => .error (.jsonError e)
      | .dict fs => .ok (setField record "raw" (jsonRoundTrip (.dict fs)))
      | _ => .ok record
    else .ok record

/-- Model of `transform_record(row, columns)` (lines 122-145).  `loads` is the
external `json.loads`; `now` is the wall-clock reading stamped into the
two timestamp fields (`datetime.utcnow().isoformat()`). -/
def transform_record (loads : String → Except String Value)
    (row : List Value) (cols : List String) (now : String) :
    Except TransformErr Record := do
  let record := dictZip cols row
  let record ← normalizeArrays record
  let record ← handleRaw loads record
  let record := setField record "overture_version" (Value.str OVERTURE_VERSION)
  let record := setField record "overture_updated_at" (Value.str now)
  let record := setField record "updated_at" (Value.str now)
  pure record

/-- A source row as delivered by the DuckDB cursor. -/
abbrev Row := List Value

/-- One write call issued to the store, with its conflict key
(`on_conflict='id'`). -/
inductive StoreCall where
  | upsertBatch (records : List Record) (onConflict : String)
  | upsertSingle (record : Record) (onConflict : String)

/-- The conflict key of a store call. -/
def StoreCall.conflictKey : StoreCall → String
  | .upsertBatch _ c => c
  | .upsertSingle _ c => c

/-- The mutable run state of `main`'s import loop: the `imported` and
`errors` counters, the `error_samples` list, plus the observable store
calls and the number of rows pulled from the source (`pbar` total). -/
structure LoadState where
  imported : Nat
  errors : Nat
  error_samples : List String
  calls : List StoreCall
  rowsPulled : Nat

/-- Counters at the start of the run (lines 233-235). -/
def initState : LoadState :=
  { imported := 0, errors := 0, error_samples := [], calls := [],
    rowsPulled := 0 }

/-- Model of `if len(error_samples) < 5: error_samples.append(msg)`. -/
def addSample (samples : List String) (msg : String) : List String :=
  if samples.length < 5 then samples ++ [msg] else samples

/-- The sample message recorded for a singleton upsert failure (line
273): an f-string naming `record.get('id', '?')` and the error text. -/
def insertErrorMsg (record : Record) (e : String) : String :=
  "Insert error for " ++
    (match lookupField record "id" with
     | some v => pyStr v
     | none => "?") ++ ": " ++ e

/-- The per-row loop of lines 244-251: transform every row of the
fetched page, collecting successes into `batch` in source order and
counting/sampling transform failures. -/
def transformPhase (loads : String → Except String Value) (now : String) :
    List Row → LoadState → List Record × LoadState
  | [], st => ([], st)
  | row :: rest, st =>
    match transform_record loads row columns now with
    | .ok record =>
      let (batch, st') := transformPhase loads now rest st
      (record :: batch, st')
    | .error e =>
      transformPhase loads now rest
        { st with errors := st.errors + 1,
                  error_samples := addSample st.error_samples
                    ("Transform error: " ++ e.message) }

/-- The per-record fallback of lines 263-273, entered when the batch
upsert fails: one singleton upsert per record in the original order.
`singleOk k` is the store's outcome for the k-th singleton call of this
batch (`none` = success, `some e` = the raised error's text). -/
def fallbackPhase (singleOk : Nat → Option String) :
    Nat → List Record → LoadState → LoadState
  | _, [], st => st
  | k, record :: rest, st =>
    let st :=
      { st with calls := st.calls ++ [StoreCall.upsertSingle record "id"] }
    match singleOk k with
    | none =>
      fallbackPhase singleOk (k + 1) rest
        { st with imported := st.imported + 1 }
    | some e2 =>
      fallbackPhase singleOk (k + 1) rest
        { st with errors := st.errors + 1,
                  error_samples := addSample st.error_samples
                    (insertErrorMsg record e2) }

/-- Processing of one fetched page (lines 239-275): count the pulled
rows, transform them, and — only when the surviving batch is non-empty —
attempt the batch upsert, falling back to singletons when it fails.
`batchOk` is the store's outcome for this page's batch call. -/
def processPage (loads : String → Except String Value) (now : String)
    (batchOk : Bool) (singleOk : Nat → Option String)
    (st : LoadState) (rows : List Row) : LoadState :=
  let st := { st with rowsPulled := st.rowsPulled + rows.length }
  let (batch, st) := transformPhase loads now rows st
  if batch.isEmpty then st
  else
    let st :=
      { st with calls := st.calls ++ [StoreCall.upsertBatch batch "id"] }
    if batchOk then { st with imported := st.imported + batch.length }
    else fallbackPhase singleOk 0 batch st

/-- The `while True` fetch loop of `main`, indexed over the pages the
cursor delivers; `batchOk i` and `singleOk i k` are the store outcomes
for page `i`. -/
def runPages (loads : String → Except String Value) (now : String)
    (batchOk : Nat → Bool) (singleOk : Nat → Nat → Option String) :
    Nat → List (List Row) → LoadState → LoadState
  | _, [], st => st
  | i, p :: ps, st =>
    runPages loads now batchOk singleOk (i + 1) ps
      (processPage loads now (batchOk i) (singleOk i) st p)

/-- Model of `cursor.fetchmany(n)` repeated until empty: the source list split
into consecutive pages of at most `n` rows.  Structural recursion on a
fuel argument; `fuel = l.length` always suffices because every
iteration consumes at least one row. -/
def chunksGo (n : Nat) : Nat → List α → List (List α)
  | _, [] => []
  | 0, l => [l]
  | fuel + 1, x :: xs =>
    (x :: xs).take n :: chunksGo n fuel ((x :: xs).drop n)

/-- The pages delivered by repeated `fetchmany(n)` over source list `l`. -/
def chunks (n : Nat) (l : List α) : List (List α) := chunksGo n l.length l

/-- The recognized CLI options of the importer (lines 174-178).  The
`limit` is modelled as an optional natural number. -/
structure Args where
  limit : Option Nat
  category : Option String
  state : Option String
  dryRun : Bool
  yes : Bool

/-- Python truthiness of `args.limit` (`if limit:` / `if args.limit:`):
`None` and `0` are both falsy. -/
def pythonTruthy : Option Nat → Bool
  | none => false
  | some n => n ≠ 0

/-- The effect of `build_query`'s trailing `LIMIT` clause (lines
116-117): the clause is appended only when `limit` is truthy, and then
the source delivers at most that many rows. -/
def applyLimit (limit : Option Nat) (rows : List α) : List α :=
  if pythonTruthy limit then rows.take (limit.getD 0) else rows

/-- The observable outcome of one invocation of the importer's `main`:
the final loop state, the reported would-import total, the number of
count queries issued, and which early exit (dry run / declined
confirmation) was taken. -/
structure RunResult where
  st : LoadState
  reportedTotal : Nat
  countCalls : Nat
  dryRunExit : Bool
  aborted : Bool

/-- Model of `main` of import_overture_us.py (lines 172-296), with the external
collaborators made explicit: `sourceCount` is what `count_records`
returns (advisory, possibly stale), `sourceRows` are the rows the
filtered query would deliver before the `LIMIT` clause, `confirmYes` is
the interactive answer to the large-import prompt, and the oracles give
the store's outcome for every upsert call. -/
def mainRun (loads : String → Except String Value) (now : String)
    (batchOk : Nat → Bool) (singleOk : Nat → Nat → Option String)
    (args : Args) (sourceCount : Nat) (sourceRows : List Row)
    (confirmYes : Bool) : RunResult :=
  let total :=
    if pythonTruthy args.limit then min sourceCount (args.limit.getD 0)
    else sourceCount
  if args.dryRun then
    { st := initState, reportedTotal := total, countCalls := 1,
      dryRunExit := true, aborted := false }
  else if total > 10000 && !args.yes && !confirmYes then
    { st := initState, reportedTotal := total, countCalls := 1,
      dryRunExit := false, aborted := true }
  else
    let effRows := applyLimit args.limit sourceRows
    { st := runPages loads now batchOk singleOk 0
        (chunks BATCH_SIZE effRows) initState,
      reportedTotal := total, countCalls := 1,
      dryRunExit := false, aborted := false }

/-!  The Bulk Delete Pipeline (clear_places.py). -/

/-- The fetch/delete loop of clear_places.py lines 53-62: fetch up to
1000 identifiers of currently surviving rows, delete exactly those,
repeat until a fetch returns nothing.  The collection is modelled as
the list of surviving row identifiers; a fetch returns its first
(up to) 1000 elements.  Structural recursion on fuel; `fuel = length`
suffices since every iteration deletes at least one row.  Returns the
sequence of fetched/deleted pages and the final collection. -/
def clearGo : Nat → List α → List (List α) × List α
  | _, [] => ([], [])
  | 0, l => ([], l)
  | fuel + 1, x :: xs =>
    let page := (x :: xs).take 1000
    let rest := (x :: xs).drop 1000
    let (pages, fin) := clearGo fuel rest
    (page :: pages, fin)

/-- The outcome of one invocation of clear_places.py `main`: the
fetch/delete cycles performed, the final collection, the running
`deleted` counter's final value, and whether the run was aborted at the
confirmation prompt. -/
structure ClearResult (α : Type) where
  cycles : List (List α)
  finalCollection : List α
  deleted : Nat
  aborted : Bool

/-- Model of `main` of clear_places.py (lines 32-64): count the rows, exit when
the collection is already empty, ask for confirmation, then run the
fetch/delete loop.  `places` is the collection's content at start (no
concurrent inserters, per the spec's stated assumption). -/
def clearMain (places : List α) (confirmYes : Bool) : ClearResult α :=
  if places.length = 0 then
    { cycles := [], finalCollection := places, deleted := 0,
      aborted := false }
  else if !confirmYes then
    { cycles := [], finalCollection := places, deleted := 0,
      aborted := true }
  else
    let (pages, fin) := clearGo places.length places
    { cycles := pages, finalCollection := fin,
      deleted := (pages.map List.length).sum, aborted := false }

/-!  Auxiliary definitions used to state the claims. -/

/-- Drop the two transform-time timestamp fields of a WriteRecord;
equality after `eraseTimestamps` is "equal on every field except the
two timestamps". -/
def eraseTimestamps (r : Record) : Record :=
  r.filter (fun p => p.1 ≠ "overture_updated_at" && p.1 ≠ "updated_at")

/-- The singleton-upsert outcome the store oracle assigns to each
record of a fallback batch, paired with the record, in batch order
(`none` = success). -/
def singleOutcomes (singleOk : Nat → Option String) :
    Nat → List Record → List (Record × Option String)
  | _, [] => []
  | k, r :: rest => (r, singleOk k) :: singleOutcomes singleOk (k + 1) rest

/-- The failure-sample messages generated by a list of singleton
outcomes, in order. -/
def failureMsgs (outs : List (Record × Option String)) : List String :=
  outs.filterMap (fun p => p.2.map (fun e => insertErrorMsg p.1 e))

/-- A `json.loads` stand-in for concrete test rows whose `raw` field is
null (it is then never invoked). -/
def stubLoads : String → Except String Value :=
  fun _ => .error "invalid json"

/-- A full-width source row whose required `id` field is missing
(NULL), every other field well-formed. -/
def rowNullId : Row :=
  [Value.null, Value.str "Sample Cafe", Value.int 1,
   Value.str "restaurant", Value.list [Value.str "cafe"],
   Value.str "BrandCo", Value.str "open",
   Value.list [Value.str "example.com"], Value.null, Value.null,
   Value.null, Value.str "1 Main St", Value.str "Springfield",
   Value.str "CA", Value.str "90210", Value.str "US", Value.int 7,
   Value.int 8, Value.null]

/-- A source row whose `websites` field is absent (NULL). -/
def rowAbsentWebsites : Row :=
  [Value.str "poi-1", Value.str "Sample Cafe", Value.int 1,
   Value.str "restaurant", Value.null, Value.null, Value.null,
   Value.null, Value.null, Value.null, Value.null, Value.null,
   Value.null, Value.null, Value.null, Value.null, Value.int 7,
   Value.int 8, Value.null]

/-- A source row whose `websites` field is present as a
source-confirmed empty sequence. -/
def rowEmptyWebsites : Row :=
  [Value.str "poi-1", Value.str "Sample Cafe", Value.int 1,
   Value.str "restaurant", Value.null, Value.null, Value.null,
   Value.list [], Value.null, Value.null, Value.null, Value.null,
   Value.null, Value.null, Value.null, Value.null, Value.int 7,
   Value.int 8, Value.null]

/-- The expected output record for a row of 19 NULL fields. -/
def nullRowOutput (now : String) : Record :=
  columns.map (fun c => (c, Value.null)) ++
    [("overture_version", Value.str OVERTURE_VERSION),
     ("overture_updated_at", Value.str now),
     ("updated_at", Value.str now)]

/-- CLI arguments with a configured record cap of 0 and confirmation
skipped. -/
def zeroCapArgs : Args :=
  { limit := some 0, category := none, state := none, dryRun := false,
    yes := true }

/-- CLI arguments for a dry run. -/
def dryArgs : Args :=
  { limit := none, category := none, state := none, dryRun := true,
    yes := false }

/-- CLI arguments with a configured record cap of 3 and confirmation
skipped. -/
def capArgs : Args :=
  { limit := some 3, category := none, state := none, dryRun := false,
    yes := true }

/-- The WriteRecord produced from `rowAbsentWebsites`. -/
def rowAbsentOutput (now : String) : Record :=
  [("id", Value.str "poi-1"), ("name", Value.str "Sample Cafe"),
   ("confidence", Value.int 1), ("primary_category", Value.str "restaurant"),
   ("alternate_categories", Value.null), ("brand", Value.null),
   ("operating_status", Value.null), ("websites", Value.null),
   ("socials", Value.null), ("phones", Value.null), ("emails", Value.null),
   ("street", Value.null), ("city", Value.null), ("state", Value.null),
   ("postcode", Value.null), ("country", Value.null),
   ("lon", Value.int 7), ("lat", Value.int 8), ("raw", Value.null),
   ("overture_version", Value.str OVERTURE_VERSION),
   ("overture_updated_at", Value.str now),
   ("updated_at", Value.str now)]

/-!  Lemmas about dict operations. -/

theorem lookupField_cons (k : String) (v : Value) (r : Record) (f : String) :
    lookupField ((k, v) :: r) f = if k = f then some v else lookupField r f :=
  rfl

theorem lookupField_append (r s : Record) (f : String) :
    lookupField (r ++ s) f =
      match lookupField r f with
      | some v => some v
      | none => lookupField s f := by
  induction r with
  | nil => rfl
  | cons p r ih =>
    by_cases h : p.1 = f
    · simp only [List.cons_append, lookupField_cons, ← h, lookupField]
      simp
    · cases p with
      | mk k v =>
        simp only [List.cons_append, lookupField_cons] at *
        simp only [h, if_false, ih]

theorem lookup_map_set_ne (r : Record) (f g : String) (v : Value)
    (h : g ≠ f) :
    lookupField (r.map (fun p => if p.1 = f then (f, v) else p)) g =
      lookupField r g := by
  induction r with
  | nil => rfl
  | cons p r ih =>
    cases p with
    | mk k w =>
      by_cases hk : k = f
      · subst hk
        have hkg : ¬(k = g) := fun hh => h hh.symm
        simp only [List.map_cons, if_pos rfl, if_true, lookupField_cons, hkg,
          if_false, ih]
      · simp only [List.map_cons, if_neg hk, lookupField_cons, ih]

theorem lookup_setField_ne (r : Record) (f g : String) (v : Value)
    (h : g ≠ f) :
    lookupField (setField r f v) g = lookupField r g := by
  unfold setField
  by_cases hs : (lookupField r f).isSome
  · simp only [hs, if_pos, lookup_map_set_ne r f g v h]
  · simp only [hs, if_neg, Bool.false_eq_true, not_false_iff,
      lookupField_append]
    cases hl : lookupField r g with
    | some w => rfl
    | none =>
      have : f ≠ g := fun hh => h hh.symm
      simp [lookupField, this]

theorem lookup_map_set_self (r : Record) (f : String) (v : Value)
    (h : (lookupField r f).isSome) :
    lookupField (r.map (fun p => if p.1 = f then (f, v) else p)) f =
      some v := by
  induction r with
  | nil => simp [lookupField] at h
  | cons p r ih =>
    cases p with
    | mk k w =>
      by_cases hk : k = f
      · simp [List.map_cons, hk, lookupField_cons]
      · simp only [lookupField_cons, hk, if_false] at h
        simp only [List.map_cons, if_neg hk, lookupField_cons, hk, if_false,
          ih h]

theorem lookup_setField_self (r : Record) (f : String) (v : Value) :
    lookupField (setField r f v) f = some v := by
  unfold setField
  by_cases hs : (lookupField r f).isSome
  · simp only [hs, if_pos, lookup_map_set_self r f v hs]
  · simp only [hs, if_neg, Bool.false_eq_true, not_false_iff,
      lookupField_append]
    cases hl : lookupField r f with
    | some w => rw [hl] at hs; simp at hs
    | none => simp [lookupField]

theorem setField_cons_ne (k f : String) (w v : Value) (r : Record)
    (h : k ≠ f) :
    setField ((k, w) :: r) f v = (k, w) :: setField r f v := by
  unfold setField
  simp only [lookupField_cons, h, if_false]
  by_cases hs : (lookupField r f).isSome
  · simp [hs, List.map_cons, h]
  · simp [hs]

theorem okB_map (f : α → β) (e : Except ε α) : okB (e.map f) = okB e := by
  cases e <;> rfl

/-!  Lemmas about the array-normalization loop. -/

theorem naf_cons_ne (k f : String) (w : Value) (r : Record) (h : k ≠ f) :
    normalizeArrayField ((k, w) :: r) f =
      (normalizeArrayField r f).map (fun r' => (k, w) :: r') := by
  unfold normalizeArrayField
  rw [lookupField_cons, if_neg h]
  cases hl : lookupField r f with
  | none => rfl
  | some v =>
    by_cases ht : pyTruthy v
    · simp only [ht, if_true]
      cases hp : pyList v with
      | error e => simp [hp, Except.map, bind, Except.bind]
      | ok l =>
        simp [hp, Except.map, bind, Except.bind, pure, Except.pure,
          setField_cons_ne k f w _ r h]
    · simp [ht, pure, Except.pure, Except.map,
        setField_cons_ne k f w _ r h]

theorem naf_some (f : String) (r : Record) (v : Value)
    (hl : lookupField r f = some v) :
    normalizeArrayField r f =
      if pyTruthy v then
        (pyList v).bind (fun l => .ok (setField r f (Value.list l)))
      else .ok (setField r f Value.null) := by
  unfold normalizeArrayField
  rw [hl]
  by_cases ht : pyTruthy v
  · simp only [ht, if_true]
    cases pyList v <;> rfl
  · simp only [ht, Bool.false_eq_true, if_false]
    rfl

theorem naf_lookup_ne (f g : String) (r r' : Record) (h : g ≠ f)
    (he : normalizeArrayField r f = .ok r') :
    lookupField r' g = lookupField r g := by
  cases hl : lookupField r f with
  | none => unfold normalizeArrayField at he; rw [hl] at he; exact absurd he (by simp)
  | some v =>
    rw [naf_some f r v hl] at he
    by_cases ht : pyTruthy v
    · rw [if_pos ht] at he
      cases hp : pyList v with
      | error e =>
        rw [hp] at he
        exact absurd he (by simp [Except.bind])
      | ok l =>
        rw [hp] at he
        simp only [Except.bind, Except.ok.injEq] at he
        rw [← he]
        exact lookup_setField_ne r f g _ h
    · rw [if_neg ht] at he
      simp only [Except.ok.injEq] at he
      rw [← he]
      exact lookup_setField_ne r f g _ h

theorem naf_falsy (f : String) (r : Record) (v : Value)
    (hl : lookupField r f = some v) (ht : pyTruthy v = false) :
    normalizeArrayField r f = .ok (setField r f Value.null) := by
  rw [naf_some f r v hl, ht]
  rfl

theorem naf_nonempty_list (f : String) (r : Record) (xs : List Value)
    (hl : lookupField r f = some (Value.list xs)) (hne : xs ≠ []) :
    normalizeArrayField r f = .ok (setField r f (Value.list xs)) := by
  rw [naf_some f r (Value.list xs) hl]
  have ht : pyTruthy (Value.list xs) = true := by
    simp [pyTruthy, List.isEmpty_iff, hne]
  rw [ht]
  rfl

theorem foldNorm_cons (fs : List String) (k : String) (w : Value)
    (h : ∀ f ∈ fs, k ≠ f) :
    ∀ r : Record,
      List.foldlM normalizeArrayField ((k, w) :: r) fs =
        (List.foldlM normalizeArrayField r fs).map
          (fun r' => (k, w) :: r') := by
  induction fs with
  | nil => intro r; rfl
  | cons f fs ih =>
    intro r
    rw [List.foldlM_cons, List.foldlM_cons,
      naf_cons_ne k f w r (h f (List.mem_cons_self f fs))]
    cases hn : normalizeArrayField r f with
    | error e => simp [Except.map, bind, Except.bind]
    | ok r1 =>
      simp only [Except.map, bind, Except.bind]
      exact ih (fun g hg => h g (List.mem_cons_of_mem f hg)) r1

theorem foldNorm_lookup_ne (fs : List String) (g : String) (hg : g ∉ fs) :
    ∀ r r' : Record,
      List.foldlM normalizeArrayField r fs = .ok r' →
      lookupField r' g = lookupField r g := by
  induction fs with
  | nil =>
    intro r r' he
    simp only [List.foldlM_nil, pure, Except.pure, Except.ok.injEq] at he
    rw [he]
  | cons f fs ih =>
    intro r r' he
    rw [List.foldlM_cons] at he
    cases hn : normalizeArrayField r f with
    | error e => rw [hn] at he; exact absurd he (by simp [bind, Except.bind])
    | ok r1 =>
      rw [hn] at he
      simp only [bind, Except.bind] at he
      have h1 : lookupField r1 g = lookupField r g :=
        naf_lookup_ne f g r r1 (fun hh => hg (hh ▸ List.mem_cons_self f fs))
          hn
      rw [ih (fun hh => hg (List.mem_cons_of_mem f hh)) r1 r' he, h1]

theorem foldNorm_falsy (fs : List String) (f : String) (v : Value) :
    ∀ r r' : Record, fs.Nodup → f ∈ fs →
      lookupField r f = some v → pyTruthy v = false →
      List.foldlM normalizeArrayField r fs = .ok r' →
      lookupField r' f = some Value.null := by
  induction fs with
  | nil => intro r r' _ hm; exact absurd hm (List.not_mem_nil f)
  | cons g fs ih =>
    intro r r' hnd hm hl ht he
    rw [List.foldlM_cons] at he
    by_cases hf : g = f
    · subst hf
      rw [naf_falsy g r v hl ht] at he
      simp only [bind, Except.bind] at he
      have hg : g ∉ fs := (List.nodup_cons.mp hnd).1
      rw [foldNorm_lookup_ne fs g hg _ r' he]
      exact lookup_setField_self r g Value.null
    · have hm' : f ∈ fs := by
        cases List.mem_cons.mp hm with
        | inl hh => exact absurd hh.symm hf
        | inr hh => exact hh
      cases hn : normalizeArrayField r g with
      | error e =>
        rw [hn] at he; exact absurd he (by simp [bind, Except.bind])
      | ok r1 =>
        rw [hn] at he
        simp only [bind, Except.bind] at he
        have hl1 : lookupField r1 f = some v := by
          rw [naf_lookup_ne g f r r1 (fun hh => hf hh.symm) hn, hl]
        exact ih r1 r' (List.nodup_cons.mp hnd).2 hm' hl1 ht he

theorem foldNorm_list (fs : List String) (f : String) (xs : List Value) :
    ∀ r r' : Record, fs.Nodup → f ∈ fs →
      lookupField r f = some (Value.list xs) → xs ≠ [] →
      List.foldlM normalizeArrayField r fs = .ok r' →
      lookupField r' f = some (Value.list xs) := by
  induction fs with
  | nil => intro r r' _ hm; exact absurd hm (List.not_mem_nil f)
  | cons g fs ih =>
    intro r r' hnd hm hl hne he
    rw [List.foldlM_cons] at he
    by_cases hf : g = f
    · subst hf
      rw [naf_nonempty_list g r xs hl hne] at he
      simp only [bind, Except.bind] at he
      have hg : g ∉ fs := (List.nodup_cons.mp hnd).1
      rw [foldNorm_lookup_ne fs g hg _ r' he]
      exact lookup_setField_self r g (Value.list xs)
    · have hm' : f ∈ fs := by
        cases List.mem_cons.mp hm with
        | inl hh => exact absurd hh.symm hf
        | inr hh => exact hh
      cases hn : normalizeArrayField r g with
      | error e =>
        rw [hn] at he; exact absurd he (by simp [bind, Except.bind])
      | ok r1 =>
        rw [hn] at he
        simp only [bind, Except.bind] at he
        have hl1 : lookupField r1 f = some (Value.list xs) := by
          rw [naf_lookup_ne g f r r1 (fun hh => hf hh.symm) hn, hl]
        exact ih r1 r' (List.nodup_cons.mp hnd).2 hm' hl1 hne he

/-!  Lemmas about raw-blob handling and the whole transform. -/

theorem hr_none (loads : String → Except String Value) (r : Record)
    (hl : lookupField r "raw" = none) :
    handleRaw loads r = .error (.keyError "raw") := by
  unfold handleRaw
  cases hl2 : lookupField r "raw" with
  | none => rfl
  | some w => rw [hl2] at hl; exact absurd hl (by simp)

theorem hr_falsy (loads : String → Except String Value) (r : Record)
    (v : Value) (hl : lookupField r "raw" = some v)
    (ht : pyTruthy v = false) : handleRaw loads r = .ok r := by
  unfold handleRaw
  cases hl2 : lookupField r "raw" with
  | none => rw [hl2] at hl; exact absurd hl (by simp)
  | some w =>
    rw [hl2] at hl
    injection hl with hw
    subst hw
    simp only [ht, Bool.false_eq_true, if_false]

theorem hr_str_ok (loads : String → Except String Value) (r : Record)
    (s : String) (j : Value)
    (hl : lookupField r "raw" = some (Value.str s))
    (ht : pyTruthy (Value.str s) = true) (hs : loads s = .ok j) :
    handleRaw loads r = .ok (setField r "raw" j) := by
  unfold handleRaw
  cases hl2 : lookupField r "raw" with
  | none => rw [hl2] at hl; exact absurd hl (by simp)
  | some w =>
    rw [hl2] at hl
    injection hl with hw
    subst hw
    simp only [ht, if_true, hs]

theorem hr_str_err (loads : String → Except String Value) (r : Record)
    (s : String) (e : String)
    (hl : lookupField r "raw" = some (Value.str s))
    (ht : pyTruthy (Value.str s) = true) (hs : loads s = .error e) :
    handleRaw loads r = .error (.jsonError e) := by
  unfold handleRaw
  cases hl2 : lookupField r "raw" with
  | none => rw [hl2] at hl; exact absurd hl (by simp)
  | some w =>
    rw [hl2] at hl
    injection hl with hw
    subst hw
    simp only [ht, if_true, hs]

theorem hr_dict (loads : String → Except String Value) (r : Record)
    (fs : List (String × Value))
    (hl : lookupField r "raw" = some (Value.dict fs))
    (ht : pyTruthy (Value.dict fs) = true) :
    handleRaw loads r =
      .ok (setField r "raw" (jsonRoundTrip (Value.dict fs))) := by
  unfold handleRaw
  cases hl2 : lookupField r "raw" with
  | none => rw [hl2] at hl; exact absurd hl (by simp)
  | some w =>
    rw [hl2] at hl
    injection hl with hw
    subst hw
    simp only [ht, if_true]

theorem hr_int (loads : String → Except String Value) (r : Record)
    (n : Int) (hl : lookupField r "raw" = some (Value.int n))
    (ht : pyTruthy (Value.int n) = true) : handleRaw loads r = .ok r := by
  unfold handleRaw
  cases hl2 : lookupField r "raw" with
  | none => rw [hl2] at hl; exact absurd hl (by simp)
  | some w =>
    rw [hl2] at hl
    injection hl with hw
    subst hw
    simp only [ht, if_true]

theorem hr_list (loads : String → Except String Value) (r : Record)
    (xs : List Value) (hl : lookupField r "raw" = some (Value.list xs))
    (ht : pyTruthy (Value.list xs) = true) : handleRaw loads r = .ok r := by
  unfold handleRaw
  cases hl2 : lookupField r "raw" with
  | none => rw [hl2] at hl; exact absurd hl (by simp)
  | some w =>
    rw [hl2] at hl
    injection hl with hw
    subst hw
    simp only [ht, if_true]

theorem hr_lookup_ne (loads : String → Except String Value) (g : String)
    (r r' : Record) (h : g ≠ "raw")
    (he : handleRaw loads r = .ok r') :
    lookupField r' g = lookupField r g := by
  cases hl : lookupField r "raw" with
  | none => rw [hr_none loads r hl] at he; exact absurd he (by simp)
  | some v =>
    by_cases ht : pyTruthy v
    · cases v with
      | null => simp [pyTruthy] at ht
      | int n =>
        rw [hr_int loads r n hl ht] at he
        injection he with hr
        rw [hr]
      | list xs =>
        rw [hr_list loads r xs hl ht] at he
        injection he with hr
        rw [hr]
      | str s =>
        cases hs : loads s with
        | ok j =>
          rw [hr_str_ok loads r s j hl ht hs] at he
          injection he with hr
          rw [← hr]
          exact lookup_setField_ne r "raw" g j h
        | error e =>
          rw [hr_str_err loads r s e hl ht hs] at he
          exact absurd he (by simp)
      | dict fs =>
        rw [hr_dict loads r fs hl ht] at he
        injection he with hr
        rw [← hr]
        exact lookup_setField_ne r "raw" g _ h
    · rw [hr_falsy loads r v hl (by simpa using ht)] at he
      injection he with hr
      rw [hr]

theorem hr_cons_ne (loads : String → Except String Value) (k : String)
    (w : Value) (r : Record) (h : k ≠ "raw") :
    handleRaw loads ((k, w) :: r) =
      (handleRaw loads r).map (fun r' => (k, w) :: r') := by
  have hc : lookupField ((k, w) :: r) "raw" = lookupField r "raw" := by
    rw [lookupField_cons, if_neg h]
  cases hl : lookupField r "raw" with
  | none =>
    rw [hr_none loads _ (hc.trans hl), hr_none loads r hl]
    rfl
  | some v =>
    by_cases ht : pyTruthy v
    · cases v with
      | null => simp [pyTruthy] at ht
      | int n =>
        rw [hr_int loads _ n (hc.trans hl) ht, hr_int loads r n hl ht]
        rfl
      | list xs =>
        rw [hr_list loads _ xs (hc.trans hl) ht, hr_list loads r xs hl ht]
        rfl
      | str s =>
        cases hs : loads s with
        | ok j =>
          rw [hr_str_ok loads _ s j (hc.trans hl) ht hs,
            hr_str_ok loads r s j hl ht hs,
            setField_cons_ne k "raw" w j r h]
          rfl
        | error e =>
          rw [hr_str_err loads _ s e (hc.trans hl) ht hs,
            hr_str_err loads r s e hl ht hs]
          rfl
      | dict fs =>
        rw [hr_dict loads _ fs (hc.trans hl) ht, hr_dict loads r fs hl ht,
          setField_cons_ne k "raw" w _ r h]
        rfl
    · rw [hr_falsy loads _ v (hc.trans hl) (by simpa using ht),
        hr_falsy loads r v hl (by simpa using ht)]
      rfl

theorem transform_record_eq (loads : String → Except String Value)
    (row : List Value) (cols : List String) (now : String) :
    transform_record loads row cols now =
      (normalizeArrays (dictZip cols row)).bind (fun r1 =>
        (handleRaw loads r1).bind (fun r2 =>
          .ok (setField
                (setField
                  (setField r2 "overture_version"
                    (Value.str OVERTURE_VERSION))
                  "overture_updated_at" (Value.str now))
                "updated_at" (Value.str now)))) := by
  rfl

theorem transform_lookup_stable (loads : String → Except String Value)
    (row : List Value) (cols : List String) (now : String) (g : String)
    (rec : Record) (h1 : g ∉ ARRAY_FIELDS) (h2 : g ≠ "raw")
    (h3 : g ≠ "overture_version") (h4 : g ≠ "overture_updated_at")
    (h5 : g ≠ "updated_at")
    (he : transform_record loads row cols now = .ok rec) :
    lookupField rec g = lookupField (dictZip cols row) g := by
  rw [transform_record_eq] at he
  cases hn : normalizeArrays (dictZip cols row) with
  | error e => rw [hn] at he; exact absurd he (by simp [Except.bind])
  | ok r1 =>
    rw [hn] at he
    simp only [Except.bind] at he
    cases hr : handleRaw loads r1 with
    | error e => rw [hr] at he; exact absurd he (by simp)
    | ok r2 =>
      rw [hr] at he
      simp only [Except.ok.injEq] at he
      rw [← he]
      rw [lookup_setField_ne _ _ _ _ h5, lookup_setField_ne _ _ _ _ h4,
        lookup_setField_ne _ _ _ _ h3]
      rw [hr_lookup_ne loads g r1 r2 h2 hr]
      exact foldNorm_lookup_ne ARRAY_FIELDS g h1 _ r1 hn

theorem transform_cons_id (loads : String → Except String Value)
    (v : Value) (rest : List Value) (now : String) :
    transform_record loads (v :: rest) columns now =
      (transform_record loads rest (List.tail columns) now).map
        (fun r => ("id", v) :: r) := by
  rw [transform_record_eq, transform_record_eq]
  rw [show dictZip columns (v :: rest) =
        ("id", v) :: dictZip (List.tail columns) rest from rfl]
  unfold normalizeArrays
  rw [foldNorm_cons ARRAY_FIELDS "id" v (by decide)]
  cases hn : List.foldlM normalizeArrayField
      (dictZip (List.tail columns) rest) ARRAY_FIELDS with
  | error e => simp [Except.map, Except.bind]
  | ok r1 =>
    simp only [Except.map, Except.bind]
    rw [hr_cons_ne loads "id" v r1 (by decide)]
    cases hr : handleRaw loads r1 with
    | error e => simp [Except.map]
    | ok r2 =>
      simp only [Except.map]
      rw [setField_cons_ne "id" "overture_version" v _ r2 (by decide),
        setField_cons_ne "id" "overture_updated_at" v _ _ (by decide),
        setField_cons_ne "id" "updated_at" v _ _ (by decide)]

/-!  Lemmas about timestamp erasure. -/

theorem eraseTs_map_set (r : Record) (k : String) (v : Value)
    (h : k = "overture_updated_at" ∨ k = "updated_at") :
    eraseTimestamps (r.map (fun p => if p.1 = k then (k, v) else p)) =
      eraseTimestamps r := by
  induction r with
  | nil => rfl
  | cons q r ih =>
    by_cases hq : q.1 = k
    · have hpq : (q.1 ≠ "overture_updated_at" && q.1 ≠ "updated_at")
          = false := by
        cases h with
        | inl hh => rw [hq, hh]; simp
        | inr hh => rw [hq, hh]; simp
      have hpk : ((k, v).1 ≠ "overture_updated_at" && (k, v).1 ≠ "updated_at")
          = false := by
        cases h with
        | inl hh => rw [hh]; simp
        | inr hh => rw [hh]; simp
      simp only [eraseTimestamps, List.map_cons, hq, if_pos,
        List.filter_cons, hpk, hpq] at *
      exact ih
    · simp only [eraseTimestamps, List.map_cons, hq, if_neg,
        Bool.false_eq_true, not_false_iff, List.filter_cons] at *
      cases hp : (q.1 ≠ "overture_updated_at" && q.1 ≠ "updated_at") with
      | false => exact ih
      | true => rw [ih]

theorem eraseTs_setField (r : Record) (k : String) (v : Value)
    (h : k = "overture_updated_at" ∨ k = "updated_at") :
    eraseTimestamps (setField r k v) = eraseTimestamps r := by
  unfold setField
  by_cases hs : (lookupField r k).isSome
  · simp only [hs, if_pos]
    exact eraseTs_map_set r k v h
  · simp only [hs, Bool.false_eq_true, if_neg, not_false_iff]
    have hpk : ((k, v).1 ≠ "overture_updated_at" && (k, v).1 ≠ "updated_at")
        = false := by
      cases h with
      | inl hh => rw [hh]; simp
      | inr hh => rw [hh]; simp
    simp [eraseTimestamps, List.filter_append, List.filter_cons, hpk]
    exact fun hh => h.resolve_left hh

/-- For a row of 19 NULL fields the transform succeeds and every source
field degrades to NULL. -/
theorem transform_nullRow (loads : String → Except String Value)
    (now : String) :
    transform_record loads (List.replicate 19 Value.null) columns now =
      .ok (nullRowOutput now) := by
  rfl

/-!  Lemmas about the import loop. -/

theorem transformPhase_state (loads : String → Except String Value)
    (now : String) :
    ∀ (rows : List Row) (st : LoadState),
      (transformPhase loads now rows st).2.imported = st.imported ∧
      (transformPhase loads now rows st).2.calls = st.calls ∧
      (transformPhase loads now rows st).2.rowsPulled = st.rowsPulled ∧
      (transformPhase loads now rows st).2.errors +
        (transformPhase loads now rows st).1.length =
          st.errors + rows.length := by
  intro rows
  induction rows with
  | nil => intro st; exact ⟨rfl, rfl, rfl, rfl⟩
  | cons row rest ih =>
    intro st
    cases ht : transform_record loads row columns now with
    | ok record =>
      rcases htp : transformPhase loads now rest st with ⟨b, st2⟩
      have ihs := ih st
      rw [htp] at ihs
      obtain ⟨i1, i2, i3, i4⟩ := ihs
      simp only [transformPhase, ht, htp]
      simp only at i1 i2 i3 i4 ⊢
      refine ⟨i1, i2, i3, ?_⟩
      simp only [List.length_cons]
      omega
    | error e =>
      simp only [transformPhase, ht]
      have ihs := ih
        { st with errors := st.errors + 1,
                  error_samples := addSample st.error_samples
                    ("Transform error: " ++ e.message) }
      obtain ⟨i1, i2, i3, i4⟩ := ihs
      refine ⟨i1, i2, i3, ?_⟩
      simp only [List.length_cons] at i4 ⊢
      omega

theorem transformPhase_batch_nil (loads : String → Except String Value)
    (now : String) :
    ∀ (rows : List Row) (st : LoadState),
      (∀ row ∈ rows, okB (transform_record loads row columns now) = false) →
      (transformPhase loads now rows st).1 = [] := by
  intro rows
  induction rows with
  | nil => intro st _; rfl
  | cons row rest ih =>
    intro st h
    cases ht : transform_record loads row columns now with
    | ok record =>
      have := h row (List.mem_cons_self row rest)
      rw [ht] at this
      simp [okB] at this
    | error e =>
      simp only [transformPhase, ht]
      exact ih _ (fun r hr => h r (List.mem_cons_of_mem row hr))

theorem addSample_take (s : List String) (m : String) (msgs : List String) :
    addSample s m ++ msgs.take (5 - (addSample s m).length) =
      s ++ ((m :: msgs).take (5 - s.length)) := by
  unfold addSample
  by_cases h : s.length < 5
  · simp only [h, if_pos]
    obtain ⟨d, hd⟩ : ∃ d, 5 - s.length = d + 1 :=
      ⟨5 - s.length - 1, by omega⟩
    have hlen : 5 - (s ++ [m]).length = d := by
      simp only [List.length_append, List.length_singleton]
      omega
    rw [hd, List.take_succ_cons, hlen, List.append_assoc,
      List.singleton_append]
  · simp only [h, if_neg, not_false_iff]
    have h0 : 5 - s.length = 0 := by omega
    rw [h0]
    simp

theorem count_singleOutcomes (singleOk : Nat → Option String) :
    ∀ (batch : List Record) (k : Nat),
      (singleOutcomes singleOk k batch).countP (fun p => p.2.isNone) +
        (singleOutcomes singleOk k batch).countP (fun p => p.2.isSome) =
        batch.length := by
  intro batch
  induction batch with
  | nil => intro k; rfl
  | cons r rest ih =>
    intro k
    cases ho : singleOk k with
    | none =>
      have h := ih (k + 1)
      simp [singleOutcomes, ho, List.countP_cons]
      omega
    | some e =>
      have h := ih (k + 1)
      simp [singleOutcomes, ho, List.countP_cons]
      omega

theorem fallbackPhase_state (singleOk : Nat → Option String) :
    ∀ (batch : List Record) (k : Nat) (st : LoadState),
      (fallbackPhase singleOk k batch st).imported =
        st.imported +
          (singleOutcomes singleOk k batch).countP (fun p => p.2.isNone) ∧
      (fallbackPhase singleOk k batch st).errors =
        st.errors +
          (singleOutcomes singleOk k batch).countP (fun p => p.2.isSome) ∧
      (fallbackPhase singleOk k batch st).calls =
        st.calls ++ batch.map (fun r => StoreCall.upsertSingle r "id") ∧
      (fallbackPhase singleOk k batch st).rowsPulled = st.rowsPulled ∧
      (fallbackPhase singleOk k batch st).error_samples =
        st.error_samples ++
          (failureMsgs (singleOutcomes singleOk k batch)).take
            (5 - st.error_samples.length) := by
  intro batch
  induction batch with
  | nil =>
    intro k st
    simp [fallbackPhase, singleOutcomes, failureMsgs]
  | cons r rest ih =>
    intro k st
    cases ho : singleOk k with
    | none =>
      obtain ⟨i1, i2, i3, i4, i5⟩ := ih (k + 1)
        { st with
          calls := st.calls ++ [StoreCall.upsertSingle r "id"],
          imported := st.imported + 1 }
      simp only [fallbackPhase, ho]
      refine ⟨?_, ?_, ?_, i4, ?_⟩
      · rw [i1]
        simp [singleOutcomes, ho, List.countP_cons]
        omega
      · rw [i2]
        simp [singleOutcomes, ho, List.countP_cons]
      · rw [i3]
        simp [List.append_assoc]
      · rw [i5]
        simp [singleOutcomes, ho, failureMsgs, List.filterMap_cons]
    | some e2 =>
      obtain ⟨i1, i2, i3, i4, i5⟩ := ih (k + 1)
        { st with
          calls := st.calls ++ [StoreCall.upsertSingle r "id"],
          errors := st.errors + 1,
          error_samples := addSample st.error_samples
            (insertErrorMsg r e2) }
      simp only [fallbackPhase, ho]
      refine ⟨?_, ?_, ?_, i4, ?_⟩
      · rw [i1]
        simp [singleOutcomes, ho, List.countP_cons]
      · rw [i2]
        simp [singleOutcomes, ho, List.countP_cons]
        omega
      · rw [i3]
        simp [List.append_assoc]
      · rw [i5, addSample_take st.error_samples (insertErrorMsg r e2)]
        simp [singleOutcomes, ho, failureMsgs, List.filterMap_cons]

theorem processPage_counts (loads : String → Except String Value)
    (now : String) (bOk : Bool) (sOk : Nat → Option String)
    (st : LoadState) (rows : List Row) :
    (processPage loads now bOk sOk st rows).imported +
        (processPage loads now bOk sOk st rows).errors =
      st.imported + st.errors + rows.length ∧
    (processPage loads now bOk sOk st rows).rowsPulled =
      st.rowsPulled + rows.length := by
  unfold processPage
  rcases htp : transformPhase loads now rows
      { st with rowsPulled := st.rowsPulled + rows.length } with ⟨batch, st2⟩
  have hT := transformPhase_state loads now rows
    { st with rowsPulled := st.rowsPulled + rows.length }
  rw [htp] at hT
  obtain ⟨h1, h2, h3, h4⟩ := hT
  simp only at h1 h2 h3 h4
  simp only [htp]
  by_cases hb : batch.isEmpty
  · have hb0 : batch.length = 0 := by
      rw [List.isEmpty_iff] at hb
      simp [hb]
    simp only [hb, if_pos]
    constructor
    · omega
    · exact h3
  · simp only [hb, Bool.false_eq_true, if_neg, not_false_iff]
    by_cases ho : bOk
    · simp only [ho, if_pos]
      constructor
      · omega
      · simpa using h3
    · simp only [ho, Bool.false_eq_true, if_neg, not_false_iff]
      have hF := fallbackPhase_state sOk batch 0
        { st2 with calls := st2.calls ++ [StoreCall.upsertBatch batch "id"] }
      obtain ⟨f1, f2, f3, f4, f5⟩ := hF
      have hc := count_singleOutcomes sOk batch 0
      have p1 : ({ st2 with
          calls := st2.calls ++ [StoreCall.upsertBatch batch "id"] }
            : LoadState).imported = st2.imported := rfl
      have p2 : ({ st2 with
          calls := st2.calls ++ [StoreCall.upsertBatch batch "id"] }
            : LoadState).errors = st2.errors := rfl
      have p3 : ({ st2 with
          calls := st2.calls ++ [StoreCall.upsertBatch batch "id"] }
            : LoadState).rowsPulled = st2.rowsPulled := rfl
      rw [p1] at f1
      rw [p2] at f2
      rw [p3] at f4
      constructor
      · rw [f1, f2]
        omega
      · rw [f4]
        simpa using h3

theorem processPage_conflict (loads : String → Except String Value)
    (now : String) (bOk : Bool) (sOk : Nat → Option String)
    (st : LoadState) (rows : List Row)
    (h : ∀ c ∈ st.calls, c.conflictKey = "id") :
    ∀ c ∈ (processPage loads now bOk sOk st rows).calls,
      c.conflictKey = "id" := by
  unfold processPage
  rcases htp : transformPhase loads now rows
      { st with rowsPulled := st.rowsPulled + rows.length } with ⟨batch, st2⟩
  have hT := transformPhase_state loads now rows
    { st with rowsPulled := st.rowsPulled + rows.length }
  rw [htp] at hT
  have h2 : st2.calls = st.calls := by simpa using hT.2.1
  simp only [htp]
  by_cases hb : batch.isEmpty
  · simp only [hb, if_pos]
    rw [h2]
    exact h
  · simp only [hb, Bool.false_eq_true, if_neg, not_false_iff]
    have hbatch : ∀ c ∈ st2.calls ++ [StoreCall.upsertBatch batch "id"],
        c.conflictKey = "id" := by
      intro c hc
      cases List.mem_append.mp hc with
      | inl hc => exact h c (h2 ▸ hc)
      | inr hc =>
        simp only [List.mem_singleton] at hc
        rw [hc]
        rfl
    by_cases ho : bOk
    · simp only [ho, if_pos]
      exact hbatch
    · simp only [ho, Bool.false_eq_true, if_neg, not_false_iff]
      have hF := fallbackPhase_state sOk batch 0
        { st2 with calls := st2.calls ++ [StoreCall.upsertBatch batch "id"] }
      intro c hc
      rw [hF.2.2.1] at hc
      cases List.mem_append.mp hc with
      | inl hc => exact hbatch c hc
      | inr hc =>
        obtain ⟨r, _, hr⟩ := List.mem_map.mp hc
        rw [← hr]
        rfl

theorem processPage_all_fail (loads : String → Except String Value)
    (now : String) (bOk : Bool) (sOk : Nat → Option String)
    (st : LoadState) (rows : List Row)
    (h : ∀ row ∈ rows, okB (transform_record loads row columns now) = false) :
    (processPage loads now bOk sOk st rows).calls = st.calls := by
  unfold processPage
  rcases htp : transformPhase loads now rows
      { st with rowsPulled := st.rowsPulled + rows.length } with ⟨batch, st2⟩
  have hT := transformPhase_state loads now rows
    { st with rowsPulled := st.rowsPulled + rows.length }
  rw [htp] at hT
  have hnil := transformPhase_batch_nil loads now rows
    { st with rowsPulled := st.rowsPulled + rows.length } h
  rw [htp] at hnil
  simp only at hnil
  simp only [htp, hnil, List.isEmpty_nil, if_pos]
  simpa using hT.2.1

theorem runPages_counts (loads : String → Except String Value)
    (now : String) (batchOk : Nat → Bool)
    (singleOk : Nat → Nat → Option String) :
    ∀ (pages : List (List Row)) (i : Nat) (st : LoadState),
      (runPages loads now batchOk singleOk i pages st).imported +
          (runPages loads now batchOk singleOk i pages st).errors =
        st.imported + st.errors + (pages.map List.length).sum ∧
      (runPages loads now batchOk singleOk i pages st).rowsPulled =
        st.rowsPulled + (pages.map List.length).sum := by
  intro pages
  induction pages with
  | nil => intro i st; simp [runPages]
  | cons p ps ih =>
    intro i st
    simp only [runPages, List.map_cons, List.sum_cons]
    obtain ⟨j1, j2⟩ := ih (i + 1)
      (processPage loads now (batchOk i) (singleOk i) st p)
    obtain ⟨k1, k2⟩ := processPage_counts loads now (batchOk i)
      (singleOk i) st p
    constructor
    · rw [j1]
      omega
    · rw [j2, k2]
      omega

theorem runPages_conflict (loads : String → Except String Value)
    (now : String) (batchOk : Nat → Bool)
    (singleOk : Nat → Nat → Option String) :
    ∀ (pages : List (List Row)) (i : Nat) (st : LoadState),
      (∀ c ∈ st.calls, c.conflictKey = "id") →
      ∀ c ∈ (runPages loads now batchOk singleOk i pages st).calls,
        c.conflictKey = "id" := by
  intro pages
  induction pages with
  | nil => intro i st h; exact h
  | cons p ps ih =>
    intro i st h
    simp only [runPages]
    exact ih (i + 1) _
      (processPage_conflict loads now (batchOk i) (singleOk i) st p h)

theorem chunksGo_flatten (n : Nat) :
    ∀ (fuel : Nat) (l : List α), (chunksGo n fuel l).flatten = l := by
  intro fuel
  induction fuel with
  | zero =>
    intro l
    cases l with
    | nil => rfl
    | cons x xs => simp [chunksGo]
  | succ f ih =>
    intro l
    cases l with
    | nil => rfl
    | cons x xs =>
      simp only [chunksGo, List.flatten_cons, ih]
      exact List.take_append_drop n (x :: xs)

theorem chunks_flatten (n : Nat) (l : List α) :
    (chunks n l).flatten = l :=
  chunksGo_flatten n l.length l

/-!  Lemmas about the delete loop. -/

theorem clearGo_nil (fuel : Nat) : clearGo fuel ([] : List α) = ([], []) := by
  cases fuel <;> rfl

theorem clearGo_spec :
    ∀ (fuel : Nat) (l : List α), l.length ≤ fuel →
      (clearGo fuel l).1.flatten = l ∧
      (clearGo fuel l).2 = [] ∧
      (clearGo fuel l).1.length = (l.length + 999) / 1000 := by
  intro fuel
  induction fuel with
  | zero =>
    intro l hl
    have : l = [] := List.eq_nil_of_length_eq_zero (Nat.le_zero.mp hl)
    subst this
    rw [clearGo_nil]
    exact ⟨rfl, rfl, by norm_num⟩
  | succ f ih =>
    intro l hl
    cases l with
    | nil =>
      rw [clearGo_nil]
      exact ⟨rfl, rfl, by norm_num⟩
    | cons x xs =>
      rcases hgo : clearGo f ((x :: xs).drop 1000) with ⟨pages, fin⟩
      have hrest : ((x :: xs).drop 1000).length ≤ f := by
        simp only [List.length_drop, List.length_cons] at *
        omega
      have ihr := ih _ hrest
      rw [hgo] at ihr
      obtain ⟨e1, e2, e3⟩ := ihr
      simp only at e1 e2 e3
      simp only [clearGo, hgo]
      refine ⟨?_, e2, ?_⟩
      · simp only [List.flatten_cons, e1]
        exact List.take_append_drop 1000 (x :: xs)
      · simp only [List.length_cons, e3, List.length_drop] at *
        omega

theorem clearGo_step (fuel : Nat) (l : List α) (hne : l ≠ [])
    (hf : 0 < fuel) :
    clearGo fuel l =
      (l.take 1000 :: (clearGo (fuel - 1) (l.drop 1000)).1,
       (clearGo (fuel - 1) (l.drop 1000)).2) := by
  cases fuel with
  | zero => omega
  | succ f =>
    cases l with
    | nil => exact absurd rfl hne
    | cons x xs =>
      rcases hgo : clearGo f ((x :: xs).drop 1000) with ⟨pages, fin⟩
      simp only [clearGo, hgo, Nat.add_sub_cancel]

/-- Sanity equation: the transform of `rowAbsentWebsites` evaluates to
an explicit record. -/
theorem transform_rowAbsent (now : String) :
    transform_record stubLoads rowAbsentWebsites columns now =
      .ok (rowAbsentOutput now) := by
  rfl

theorem mainRun_st_cases (loads : String → Except String Value)
    (now : String) (batchOk : Nat → Bool)
    (singleOk : Nat → Nat → Option String) (args : Args)
    (sourceCount : Nat) (sourceRows : List Row) (confirmYes : Bool) :
    (mainRun loads now batchOk singleOk args sourceCount sourceRows
        confirmYes).st = initState ∨
    (mainRun loads now batchOk singleOk args sourceCount sourceRows
        confirmYes).st =
      runPages loads now batchOk singleOk 0
        (chunks BATCH_SIZE (applyLimit args.limit sourceRows)) initState := by
  by_cases hd : args.dryRun = true
  · exact Or.inl (by simp [mainRun, hd])
  · by_cases hc : ((if pythonTruthy args.limit then
        min sourceCount (args.limit.getD 0) else sourceCount) > 10000
        && !args.yes && !confirmYes) = true
    · exact Or.inl (by simp [mainRun, hd, hc])
    · exact Or.inr (by simp [mainRun, hd, hc])

/-!  Claim theorems. -/

/-- C1 (counterexample): the claim says a row whose required scalar
field `id` is missing makes `transform_record` fail with a
TransformError.  On `rowNullId` — a full-width row whose `id` is NULL
and whose every other field is well-formed — the transform succeeds,
so the claim is false as stated. -/
theorem c1_counterexample :
    okB (transform_record stubLoads rowNullId columns "T") = true := by
  rfl

/-- C1 (amended): `transform_record` performs no required-field check
on `id`: whether it succeeds is independent of the `id` value; the `id`
value (including NULL) is copied to the output like any other field;
and a row whose every field is missing (NULL) transforms successfully
with every source field degraded to the "no value" marker NULL. -/
theorem c1_amended_no_id_check :
    (∀ (loads : String → Except String Value) (now : String)
       (v v' : Value) (rest : List Value),
       okB (transform_record loads (v :: rest) columns now) =
         okB (transform_record loads (v' :: rest) columns now)) ∧
    (∀ (loads : String → Except String Value) (now : String) (v : Value)
       (rest : List Value) (rec : Record),
       transform_record loads (v :: rest) columns now = .ok rec →
       lookupField rec "id" = some v) ∧
    (∀ (loads : String → Except String Value) (now : String),
       transform_record loads (List.replicate 19 Value.null) columns now =
         .ok (nullRowOutput now)) := by
  refine ⟨?_, ?_, ?_⟩
  · intro loads now v v' rest
    rw [transform_cons_id, transform_cons_id, okB_map, okB_map]
  · intro loads now v rest rec he
    rw [transform_cons_id] at he
    cases hx : transform_record loads rest (List.tail columns) now with
    | error e => rw [hx] at he; exact absurd he (by simp [Except.map])
    | ok r' =>
      rw [hx] at he
      simp only [Except.map, Except.ok.injEq] at he
      rw [← he, lookupField_cons, if_pos rfl]
  · intro loads now
    exact transform_nullRow loads now

/-- C1 witness: instantiating the amended claim at the all-NULL row. -/
theorem c1_witness :
    lookupField (nullRowOutput "T") "id" = some Value.null :=
  c1_amended_no_id_check.2.1 stubLoads "T" Value.null
    (List.replicate 18 Value.null) (nullRowOutput "T")
    (c1_amended_no_id_check.2.2 stubLoads "T")

/-- C2 (counterexample): the claim says an absent `websites` field and
a source-confirmed-empty `websites = []` are distinguishable in the
output.  Both transform to the same marker NULL, so they are not. -/
theorem c2_counterexample :
    Except.map (fun r => lookupField r "websites")
        (transform_record stubLoads rowAbsentWebsites columns "T") =
      .ok (some Value.null) ∧
    Except.map (fun r => lookupField r "websites")
        (transform_record stubLoads rowEmptyWebsites columns "T") =
      .ok (some Value.null) :=
  ⟨rfl, rfl⟩

/-- C2 (amended): every array-typed field is normalized independently:
a falsy source value — absent/NULL and the empty sequence alike — maps
to the single "no value" marker NULL (the two cases are NOT
distinguishable in the output), while a present non-empty sequence is
copied unchanged, preserving source order. -/
theorem c2_amended_array_normalization :
    ∀ (loads : String → Except String Value) (now : String)
      (row : List Value) (rec : Record) (f : String) (v : Value),
      f ∈ ARRAY_FIELDS →
      transform_record loads row columns now = .ok rec →
      lookupField (dictZip columns row) f = some v →
      ((pyTruthy v = false → lookupField rec f = some Value.null) ∧
       (∀ xs : List Value, v = Value.list xs → xs ≠ [] →
          lookupField rec f = some (Value.list xs))) := by
  intro loads now row rec f v hf he hl
  rw [transform_record_eq] at he
  cases hn : normalizeArrays (dictZip columns row) with
  | error e => rw [hn] at he; exact absurd he (by simp [Except.bind])
  | ok r1 =>
    rw [hn] at he
    simp only [Except.bind] at he
    cases hr : handleRaw loads r1 with
    | error e => rw [hr] at he; exact absurd he (by simp)
    | ok r2 =>
      rw [hr] at he
      simp only [Except.ok.injEq] at he
      simp only [ARRAY_FIELDS, List.mem_cons, List.not_mem_nil, or_false,
        List.mem_singleton] at hf
      rcases hf with rfl | rfl | rfl | rfl | rfl <;>
      · constructor
        · intro hfalse
          rw [← he, lookup_setField_ne _ _ _ _ (by decide),
            lookup_setField_ne _ _ _ _ (by decide),
            lookup_setField_ne _ _ _ _ (by decide),
            hr_lookup_ne loads _ r1 r2 (by decide) hr]
          exact foldNorm_falsy ARRAY_FIELDS _ v _ r1 (by decide)
            (by decide) hl hfalse hn
        · intro xs hv hne
          subst hv
          rw [← he, lookup_setField_ne _ _ _ _ (by decide),
            lookup_setField_ne _ _ _ _ (by decide),
            lookup_setField_ne _ _ _ _ (by decide),
            hr_lookup_ne loads _ r1 r2 (by decide) hr]
          exact foldNorm_list ARRAY_FIELDS _ xs _ r1 (by decide)
            (by decide) hl hne hn

/-- C2 witness: instantiating the amended claim at the all-NULL row on
the `websites` field. -/
theorem c2_witness :
    lookupField (nullRowOutput "T") "websites" = some Value.null :=
  (c2_amended_array_normalization stubLoads "T"
      (List.replicate 19 Value.null) (nullRowOutput "T") "websites"
      Value.null (by decide) (transform_nullRow stubLoads "T") rfl).1 rfl

/-- C8: two invocations of `transform_record` on the same row (with the
pipeline's column list and the same version tag) agree on every field
except the two timestamp fields `overture_updated_at` / `updated_at`,
whatever wall-clock readings the two invocations observe. -/
theorem c8_deterministic_modulo_timestamps :
    ∀ (loads : String → Except String Value) (row : List Value)
      (now1 now2 : String),
      (transform_record loads row columns now1).map eraseTimestamps =
        (transform_record loads row columns now2).map eraseTimestamps := by
  intro loads row now1 now2
  rw [transform_record_eq, transform_record_eq]
  cases hn : normalizeArrays (dictZip columns row) with
  | error e => rfl
  | ok r1 =>
    simp only [Except.bind]
    cases hr : handleRaw loads r1 with
    | error e => rfl
    | ok r2 =>
      simp only [Except.map]
      rw [eraseTs_setField _ "updated_at" _ (Or.inr rfl),
        eraseTs_setField _ "overture_updated_at" _ (Or.inl rfl),
        eraseTs_setField _ "updated_at" _ (Or.inr rfl),
        eraseTs_setField _ "overture_updated_at" _ (Or.inl rfl)]

/-- C3: for every run of the Bulk Load Pipeline — any source rows, any
count estimate, any per-batch and per-record store outcomes, any CLI
arguments — the final `imported` plus `errors` counters equal the total
number of rows actually pulled from the source. -/
theorem c3_counter_invariant :
    ∀ (loads : String → Except String Value) (now : String)
      (batchOk : Nat → Bool) (singleOk : Nat → Nat → Option String)
      (args : Args) (sourceCount : Nat) (sourceRows : List Row)
      (confirmYes : Bool),
      (mainRun loads now batchOk singleOk args sourceCount sourceRows
          confirmYes).st.imported +
        (mainRun loads now batchOk singleOk args sourceCount sourceRows
          confirmYes).st.errors =
        (mainRun loads now batchOk singleOk args sourceCount sourceRows
          confirmYes).st.rowsPulled := by
  intro loads now batchOk singleOk args sourceCount sourceRows confirmYes
  rcases mainRun_st_cases loads now batchOk singleOk args sourceCount
      sourceRows confirmYes with h | h <;> rw [h]
  · simp [initState]
  · obtain ⟨q1, q2⟩ := runPages_counts loads now batchOk singleOk
      (chunks BATCH_SIZE (applyLimit args.limit sourceRows)) 0 initState
    rw [q1, q2]
    simp [initState]

/-- C6: with the dry-run flag set the pipeline performs the count step
and reports the resulting count (the source count, capped by a truthy
limit), but pulls zero rows from the source and issues zero store
calls, regardless of source size. -/
theorem c6_dry_run :
    ∀ (loads : String → Except String Value) (now : String)
      (batchOk : Nat → Bool) (singleOk : Nat → Nat → Option String)
      (args : Args) (sourceCount : Nat) (sourceRows : List Row)
      (confirmYes : Bool),
      args.dryRun = true →
      (mainRun loads now batchOk singleOk args sourceCount sourceRows
          confirmYes).countCalls = 1 ∧
      (mainRun loads now batchOk singleOk args sourceCount sourceRows
          confirmYes).reportedTotal =
        (if pythonTruthy args.limit then
          min sourceCount (args.limit.getD 0)
         else sourceCount) ∧
      (mainRun loads now batchOk singleOk args sourceCount sourceRows
          confirmYes).st.rowsPulled = 0 ∧
      (mainRun loads now batchOk singleOk args sourceCount sourceRows
          confirmYes).st.calls = [] := by
  intro loads now batchOk singleOk args sourceCount sourceRows confirmYes hd
  simp [mainRun, hd, initState]

/-- C6 witness: a dry run over a source reporting 50000 rows pulls
nothing and writes nothing. -/
theorem c6_witness :
    (mainRun stubLoads "T" (fun _ => true) (fun _ _ => none) dryArgs
        50000 [] true).st.rowsPulled = 0 ∧
    (mainRun stubLoads "T" (fun _ => true) (fun _ _ => none) dryArgs
        50000 [] true).st.calls = [] := by
  have h := c6_dry_run stubLoads "T" (fun _ => true) (fun _ _ => none)
    dryArgs 50000 [] true rfl
  exact ⟨h.2.2.1, h.2.2.2⟩

/-- C7 (counterexample): the claim quantifies over every configured
record cap; with a configured cap of 0 the `if limit:` guard of
`build_query` is falsy, no LIMIT clause is emitted, and the pipeline
pulls all 501 source rows — exceeding the cap by more than one page
(500). -/
theorem c7_counterexample :
    (mainRun stubLoads "T" (fun _ => true) (fun _ _ => none) zeroCapArgs
        0 (List.replicate 501 ([] : Row)) true).st.rowsPulled = 501 ∧
    500 < (mainRun stubLoads "T" (fun _ => true) (fun _ _ => none)
        zeroCapArgs 0 (List.replicate 501 ([] : Row)) true).st.rowsPulled
    := by
  have hmg : ∀ srows : List Row,
      (mainRun stubLoads "T" (fun _ => true) (fun _ _ => none)
        zeroCapArgs 0 srows true).st =
      runPages stubLoads "T" (fun _ => true) (fun _ _ => none) 0
        (chunks BATCH_SIZE srows) initState := by
    intro srows
    simp [mainRun, zeroCapArgs, pythonTruthy, applyLimit]
  have hm := hmg (List.replicate 501 ([] : Row))
  have h := (runPages_counts stubLoads "T" (fun _ => true)
    (fun _ _ => none) (chunks BATCH_SIZE (List.replicate 501 ([] : Row)))
    0 initState).2
  have hsum : ((chunks BATCH_SIZE
      (List.replicate 501 ([] : Row))).map List.length).sum = 501 := by
    rw [← List.length_flatten, chunks_flatten]
    exact List.length_replicate 501 ([] : Row)
  constructor
  · rw [hm, h, hsum]
    simp [initState]
  · rw [hm, h, hsum]
    simp [initState]

/-- C7 (amended): for every configured positive record cap N the
pipeline pulls at most N rows from the source, however many rows the
source holds; a configured cap of 0, however, is treated as "no cap"
by the falsy `if limit:` guard and does not bound the pull at all. -/
theorem c7_amended_cap_enforced :
    ∀ (loads : String → Except String Value) (now : String)
      (batchOk : Nat → Bool) (singleOk : Nat → Nat → Option String)
      (args : Args) (sourceCount : Nat) (sourceRows : List Row)
      (confirmYes : Bool) (n : Nat),
      args.limit = some n → 1 ≤ n →
      (mainRun loads now batchOk singleOk args sourceCount sourceRows
          confirmYes).st.rowsPulled ≤ n := by
  intro loads now batchOk singleOk args sourceCount sourceRows confirmYes
    n hn h1
  rcases mainRun_st_cases loads now batchOk singleOk args sourceCount
      sourceRows confirmYes with h | h <;> rw [h]
  · simp [initState]
  · obtain ⟨q1, q2⟩ := runPages_counts loads now batchOk singleOk
      (chunks BATCH_SIZE (applyLimit args.limit sourceRows)) 0 initState
    rw [q2, ← List.length_flatten, chunks_flatten]
    have htr : pythonTruthy (some n) = true := by
      simp [pythonTruthy]
      omega
    simp only [applyLimit, hn, htr, if_true, Option.getD_some, initState]
    have := List.length_take_le n sourceRows
    omega

/-- C7 witness: with a cap of 3 over a 5-row source at most 3 rows are
pulled. -/
theorem c7_witness :
    (mainRun stubLoads "T" (fun _ => true) (fun _ _ => none) capArgs 5
        (List.replicate 5 ([] : Row)) true).st.rowsPulled ≤ 3 :=
  c7_amended_cap_enforced stubLoads "T" (fun _ => true) (fun _ _ => none)
    capArgs 5 (List.replicate 5 ([] : Row)) true 3 rfl (by norm_num)

/-- C9: the identifier is preserved end-to-end: a source row carrying
an `id` value yields a WriteRecord carrying exactly that value, and
every store call the pipeline ever issues uses `id` as its conflict
key. -/
theorem c9_id_preserved :
    (∀ (loads : String → Except String Value) (row : List Value)
       (now : String) (i : Value) (rec : Record),
       lookupField (dictZip columns row) "id" = some i →
       transform_record loads row columns now = .ok rec →
       lookupField rec "id" = some i) ∧
    (∀ (loads : String → Except String Value) (now : String)
       (batchOk : Nat → Bool) (singleOk : Nat → Nat → Option String)
       (args : Args) (sourceCount : Nat) (sourceRows : List Row)
       (confirmYes : Bool) (c : StoreCall),
       c ∈ (mainRun loads now batchOk singleOk args sourceCount
            sourceRows confirmYes).st.calls →
       c.conflictKey = "id") := by
  constructor
  · intro loads row now i rec hl he
    rw [transform_lookup_stable loads row columns now "id" rec
      (by decide) (by decide) (by decide) (by decide) (by decide) he]
    exact hl
  · intro loads now batchOk singleOk args sourceCount sourceRows
      confirmYes c hc
    rcases mainRun_st_cases loads now batchOk singleOk args sourceCount
        sourceRows confirmYes with h | h
    · rw [h] at hc
      simp [initState] at hc
    · rw [h] at hc
      refine runPages_conflict loads now batchOk singleOk
        (chunks BATCH_SIZE (applyLimit args.limit sourceRows)) 0 initState
        ?_ c hc
      intro c' hc'
      simp [initState] at hc'

/-- C9 witness: instantiating identifier preservation at a concrete
row whose `id` is the string "poi-1". -/
theorem c9_witness :
    lookupField (rowAbsentOutput "T") "id" = some (Value.str "poi-1") :=
  c9_id_preserved.1 stubLoads rowAbsentWebsites "T" (Value.str "poi-1")
    (rowAbsentOutput "T") rfl (transform_rowAbsent "T")

/-- C10: a fetched page in which every row fails the transform
produces no store call at all: the `if batch:` guard skips the upsert
when the surviving batch is empty. -/
theorem c10_no_write_for_failed_page :
    ∀ (loads : String → Except String Value) (now : String)
      (batchOk : Bool) (singleOk : Nat → Option String)
      (st : LoadState) (rows : List Row),
      (∀ row ∈ rows,
        okB (transform_record loads row columns now) = false) →
      (processPage loads now batchOk singleOk st rows).calls = st.calls :=
  fun loads now batchOk singleOk st rows h =>
    processPage_all_fail loads now batchOk singleOk st rows h

/-- C10 witness: a page whose single row is empty (its transform
raises KeyError) produces no store call. -/
theorem c10_witness :
    (processPage stubLoads "T" true (fun _ => none) initState
        [[]]).calls = initState.calls :=
  c10_no_write_for_failed_page stubLoads "T" true (fun _ => none)
    initState [[]]
    (by
      intro row hr
      simp only [List.mem_singleton] at hr
      subst hr
      rfl)

/-- C4: when a batch upsert fails, the fallback loop retries every
record of the batch as an independent singleton upsert in the original
order (a failure at position k never blocks positions k+1..n); each
singleton success increments `imported`, each failure increments
`errors`; and the retained failure samples are exactly the first
failure descriptions up to the global cap of 5, each built from the
failing record's key and the error text. -/
theorem c4_fallback_isolation :
    ∀ (singleOk : Nat → Option String) (batch : List Record)
      (st : LoadState),
      (fallbackPhase singleOk 0 batch st).calls =
        st.calls ++ batch.map (fun r => StoreCall.upsertSingle r "id") ∧
      (fallbackPhase singleOk 0 batch st).imported =
        st.imported +
          (singleOutcomes singleOk 0 batch).countP
            (fun p => p.2.isNone) ∧
      (fallbackPhase singleOk 0 batch st).errors =
        st.errors +
          (singleOutcomes singleOk 0 batch).countP
            (fun p => p.2.isSome) ∧
      (fallbackPhase singleOk 0 batch st).error_samples =
        st.error_samples ++
          (failureMsgs (singleOutcomes singleOk 0 batch)).take
            (5 - st.error_samples.length) ∧
      (st.error_samples.length ≤ 5 →
        (fallbackPhase singleOk 0 batch st).error_samples.length ≤ 5) := by
  intro singleOk batch st
  obtain ⟨f1, f2, f3, f4, f5⟩ := fallbackPhase_state singleOk batch 0 st
  refine ⟨f3, f1, f2, f5, ?_⟩
  intro hcap
  rw [f5]
  have := List.length_take_le (5 - st.error_samples.length)
    (failureMsgs (singleOutcomes singleOk 0 batch))
  simp only [List.length_append]
  omega

/-- C4 witness: instantiating fallback isolation at a one-record batch
whose singleton upsert fails. -/
theorem c4_witness :
    (fallbackPhase (fun _ => some "boom") 0 [[("id", Value.str "a")]]
        initState).error_samples.length ≤ 5 :=
  (c4_fallback_isolation (fun _ => some "boom")
      [[("id", Value.str "a")]] initState).2.2.2.2 (by simp [initState])

/-- C5: with a confirmed run and no concurrent inserters, the delete
loop performs exactly ceil(total/1000) fetch/delete cycles, the cycles
exactly partition the starting collection (so each fetch returns only
identifiers not deleted by a previous cycle — they are pairwise
disjoint when the identifiers are distinct), the collection is left
empty, and the deleted counter equals the starting total; on a
2500-row collection it runs exactly 3 cycles of 1000, 1000 and 500
deletions. -/
theorem c5_delete_pipeline :
    (∀ (α : Type) (places : List α),
      (clearMain places true).cycles.length =
        (places.length + 999) / 1000 ∧
      (clearMain places true).cycles.flatten = places ∧
      (clearMain places true).finalCollection = [] ∧
      (clearMain places true).deleted = places.length ∧
      (places.Nodup →
        (clearMain places true).cycles.Pairwise List.Disjoint)) ∧
    (clearMain (List.range 2500) true).cycles.map List.length =
      [1000, 1000, 500] := by
  constructor
  · intro α places
    by_cases h0 : places.length = 0
    · have hnil : places = [] := List.eq_nil_of_length_eq_zero h0
      subst hnil
      simp [clearMain]
    · obtain ⟨e1, e2, e3⟩ := clearGo_spec places.length places (le_refl _)
      rcases hgo : clearGo places.length places with ⟨pages, fin⟩
      rw [hgo] at e1 e2 e3
      simp only at e1 e2 e3
      have hmain : clearMain places true =
          { cycles := pages, finalCollection := fin,
            deleted := (pages.map List.length).sum, aborted := false } := by
        simp [clearMain, h0, hgo]
      rw [hmain]
      refine ⟨e3, e1, e2, ?_, ?_⟩
      · simp only
        rw [← List.length_flatten, e1]
      · intro hnd
        have hfl : pages.flatten.Nodup := by rw [e1]; exact hnd
        exact (List.nodup_flatten.mp hfl).2
  · have hlen : (List.range 2500).length = 2500 := List.length_range 2500
    have hne1 : List.range 2500 ≠ [] := by
      intro h
      have := congrArg List.length h
      rw [hlen] at this
      simp at this
    have hne2 : (List.range 2500).drop 1000 ≠ [] := by
      intro h
      have := congrArg List.length h
      simp only [List.length_drop, hlen] at this
      norm_num at this
    have hne3 : ((List.range 2500).drop 1000).drop 1000 ≠ [] := by
      intro h
      have := congrArg List.length h
      simp only [List.length_drop, hlen] at this
      norm_num at this
    have hnil : ((((List.range 2500).drop 1000).drop 1000).drop 1000
        : List Nat) = [] := by
      apply List.eq_nil_of_length_eq_zero
      simp [List.length_drop, hlen]
    have hmain : (clearMain (List.range 2500) true).cycles =
        (clearGo 2500 (List.range 2500)).1 := by
      simp [clearMain, hlen]
    rw [hmain,
      clearGo_step 2500 _ hne1 (by norm_num),
      clearGo_step 2499 _ hne2 (by norm_num),
      clearGo_step 2498 _ hne3 (by norm_num)]
    simp only [hnil, clearGo_nil]
    simp [List.length_take, List.length_drop, hlen]

/-- C5 witness: instantiating the delete-pipeline theorem on 1500
distinct identifiers. -/
theorem c5_witness :
    (clearMain (List.range 1500) true).cycles.Pairwise List.Disjoint ∧
    (clearMain (List.range 1500) true).finalCollection = [] :=
  ⟨(c5_delete_pipeline.1 Nat (List.range 1500)).2.2.2.2
      (List.nodup_range 1500),
   (c5_delete_pipeline.1 Nat (List.range 1500)).2.2.1⟩
